import Mathlib

set_option maxHeartbeats 1000000

/-!
Shallow embedding of the t-nav-sim frontend route model and its companions
(src/frontend/src/types/map.ts, src/frontend/src/App.vue,
src/frontend/src/components/RouteControlPanel.vue, and the LRU cache
utility).  Coordinates are modelled as rationals; index arguments coming
from JavaScript callers are modelled as integers, so the `idx >= 0` guards
of the source can be translated literally.
-/

namespace TNavSim

/-- Array access at a possibly negative JavaScript index: `a[i]` is
`undefined` whenever `i < 0` or `i >= a.length`. -/
def zget (l : List α) (i : ℤ) : Option α :=
  if 0 ≤ i then l[i.toNat]? else none

/-- In-place update `l[n] = f l[n]`, a no-op when the index is out of range. -/
def listModify (l : List α) (n : ℕ) (f : α → α) : List α :=
  match l[n]? with
  | none => l
  | some a => l.set n (f a)

/-- `SelectionType` from src/frontend/src/types/enums.ts. -/
inductive SelectionType where
  | POINT
  | SEGMENT
deriving DecidableEq, Repr

/-- `SegmentState` from src/frontend/src/types/enums.ts. -/
inductive SegmentState where
  | PENDING
  | ACTIVE
  | DONE
deriving DecidableEq, Repr

/-- `RoutePoint` from src/frontend/src/types/map.ts (geometry and selection
state only; rendering helpers are out of scope). -/
structure RoutePoint where
  lat : ℚ
  lon : ℚ
  isSelected : Bool := false
deriving DecidableEq, Repr

/-- `RouteSegment` from src/frontend/src/types/map.ts.  The source fields
`from`/`to` are Lean keywords, hence `fromIdx`/`toIdx`. -/
structure RouteSegment where
  fromIdx : ℕ
  toIdx : ℕ
  isSelected : Bool := false
  state : SegmentState := .PENDING
deriving DecidableEq, Repr

/-- `MotionProfileType` from the motion-profile module. -/
inductive MotionProfileType where
  | simple
  | advance
deriving DecidableEq, Repr

/-- The shared parameter record of `SimpleMotionProfile`/`AdvanceMotionProfile`. -/
structure MotionParams where
  cruise_speed_kmh : ℚ
  accel_mps2 : ℚ
  decel_mps2 : ℚ
  turn_slowdown_factor_per_deg : ℚ
  min_turn_speed_kmh : ℚ
  turn_rate_deg_s : ℚ
  start_hold_s : ℚ
  start_speed_kmh : ℚ
  start_speed_s : ℚ
deriving DecidableEq, Repr

/-- `MotionProfile`: a tagged union whose two variants share the same
parameter record. -/
structure MotionProfile where
  type : MotionProfileType
  params : MotionParams
deriving DecidableEq, Repr

/-- `createDefaultMotionProfile()` from the motion-profile module. -/
def createDefaultMotionProfile : MotionProfile :=
  { type := .simple
    params :=
      { cruise_speed_kmh := 20
        accel_mps2 := 1
        decel_mps2 := 1
        turn_slowdown_factor_per_deg := 1/10
        min_turn_speed_kmh := 5
        turn_rate_deg_s := 20
        start_hold_s := 60
        start_speed_kmh := 3
        start_speed_s := 30 } }

/-- `Route` from src/frontend/src/types/map.ts.  The `motionProfile` field is
read and written by App.vue and RouteControlPanel.vue on route objects
(`route.motionProfile`), initialised to the default profile. -/
structure Route where
  routeId : String := "Untitled Route"
  points : List RoutePoint := []
  segments : List RouteSegment := []
  simulatingSegmentRange : Option (ℤ × ℤ) := none
  selectedType : Option SelectionType := none
  motionProfile : MotionProfile := createDefaultMotionProfile
deriving DecidableEq, Repr

/-- `new Route()`. -/
def Route.init : Route := {}

/-- `Route.rebuildSegments`: derive segment `i = (i, i+1)` for every
consecutive waypoint pair, preserving which segment index was selected. -/
def Route.rebuildSegments (r : Route) : Route :=
  let selectedIdx := r.segments.findIdx? fun s => s.isSelected
  { r with
    segments := (List.range (r.points.length - 1)).map fun i =>
      { fromIdx := i, toIdx := i + 1, isSelected := decide (selectedIdx = some i) } }

/-- `Route.addPoint`. -/
def Route.addPoint (r : Route) (lat lon : ℚ) : Route :=
  Route.rebuildSegments { r with points := r.points ++ [{ lat := lat, lon := lon }] }

/-- `Route.isSegmentLocked`. -/
def Route.isSegmentLocked (r : Route) (segmentIdx : ℤ) : Bool :=
  match r.simulatingSegmentRange with
  | none => false
  | some (s, e) =>
    match zget r.segments segmentIdx with
    | none => false
    | some _ => decide (s ≤ segmentIdx) && decide (segmentIdx ≤ e)

/-- `Route.isPointLocked`: some segment with index inside the simulating
range has the point as an endpoint. -/
def Route.isPointLocked (r : Route) (pointIdx : ℤ) : Bool :=
  match r.simulatingSegmentRange with
  | none => false
  | some (s, e) =>
    r.segments.enum.any fun p =>
      decide (s ≤ (p.1 : ℤ)) && decide ((p.1 : ℤ) ≤ e) &&
        (decide ((p.2.fromIdx : ℤ) = pointIdx) || decide ((p.2.toIdx : ℤ) = pointIdx))

/-- `Route.deletePoint`. -/
def Route.deletePoint (r : Route) (idx : ℤ) : Route :=
  if 0 ≤ idx ∧ idx < (r.points.length : ℤ) then
    if r.isPointLocked idx then r
    else Route.rebuildSegments { r with points := r.points.eraseIdx idx.toNat }
  else r

/-- `Route.movePoint`. -/
def Route.movePoint (r : Route) (idx : ℤ) (lat lon : ℚ) : Route :=
  if 0 ≤ idx ∧ idx < (r.points.length : ℤ) then
    if r.isPointLocked idx then r
    else
      { r with
        points := listModify r.points idx.toNat fun p => { p with lat := lat, lon := lon } }
  else r

/-- `Route.startSimulation`: lock `[startSegIdx, endSegIdx ?? segments.length - 1]`
and reset every segment to `PENDING`. -/
def Route.startSimulation (r : Route) (startSegIdx : ℤ) (endSegIdx : Option ℤ) : Route :=
  let e : ℤ :=
    match endSegIdx with
    | some x => x
    | none => (r.segments.length : ℤ) - 1
  { r with
    simulatingSegmentRange := some (startSegIdx, e)
    segments := r.segments.map fun s => { s with state := .PENDING } }

/-- `Route.stopSimulation`: clear the lock range and reset every segment to
`PENDING`. -/
def Route.stopSimulation (r : Route) : Route :=
  { r with
    simulatingSegmentRange := none
    segments := r.segments.map fun s => { s with state := .PENDING } }

/-- The source-index arithmetic of `Route.splitSegment`: new segment `i`
copies its state from old segment `splitSourceIdx idx i`. -/
def splitSourceIdx (idx i : ℕ) : ℕ :=
  if i = idx ∨ i = idx + 1 then idx
  else if i < idx then i
  else i - 1

/-- The renumbered segments built inside `Route.splitSegment`: for each of
the `m` consecutive pairs of the widened point list, a fresh segment `(i, i+1)`
carrying the state of old segment `splitSourceIdx n i`.  Reading
`oldSegments[sourceIdx].state` at an out-of-range index is a JavaScript
runtime error; the model substitutes a default segment there (unreachable
for well-formed routes). -/
def splitNewSegments (oldSegments : List RouteSegment) (n m : ℕ) :
    List RouteSegment :=
  (List.range m).map fun i =>
    { fromIdx := i, toIdx := i + 1
      state := ((oldSegments[splitSourceIdx n i]?).getD { fromIdx := 0, toIdx := 0 }).state }

/-- The selection-restore step at the end of `Route.splitSegment`: re-select
the previously selected segment index, shifted by one when it lay past the
split; returns the final segment list and the `selectedType` field. -/
def splitSelect (newSegments : List RouteSegment) (oldSelectedIdx : Option ℕ)
    (n : ℕ) (prevType : Option SelectionType) :
    List RouteSegment × Option SelectionType :=
  match oldSelectedIdx with
  | some oldSel =>
    if oldSel = n then
      (listModify newSegments n fun s => { s with isSelected := true }, some .SEGMENT)
    else if n < oldSel then
      let shiftedIdx := oldSel + 1
      if shiftedIdx < newSegments.length then
        (listModify newSegments shiftedIdx fun s => { s with isSelected := true },
          some .SEGMENT)
      else (newSegments, prevType)
    else
      (listModify newSegments oldSel fun s => { s with isSelected := true },
        some .SEGMENT)
  | none => (newSegments, none)

/-- `Route.splitSegment`: insert the arithmetic midpoint of segment `idx`,
renumber the segments (`splitNewSegments`), carry segment states over, and
restore the selected segment (`splitSelect`). -/
def Route.splitSegment (r : Route) (idx : ℤ) : Bool × Route :=
  if r.simulatingSegmentRange ≠ none then (false, r)
  else if idx < 0 ∨ (r.segments.length : ℤ) ≤ idx then (false, r)
  else if r.isSegmentLocked idx then (false, r)
  else
    match zget r.points idx, zget r.points (idx + 1) with
    | some fromPoint, some toPoint =>
      let n := idx.toNat
      let midPoint : RoutePoint :=
        { lat := (fromPoint.lat + toPoint.lat) / 2
          lon := (fromPoint.lon + toPoint.lon) / 2 }
      let oldSelectedIdx := r.segments.findIdx? fun s => s.isSelected
      let points2 := r.points.insertIdx (n + 1) midPoint
      let sel := splitSelect (splitNewSegments r.segments n (points2.length - 1))
        oldSelectedIdx n r.selectedType
      (true, { r with points := points2, segments := sel.1, selectedType := sel.2 })
    | _, _ => (false, r)

/-- Squared planar distance in degree coordinates.  The source compares
`Math.hypot` values; `hypot` is strictly monotone in the squared sum, so
comparing squares decides the same order. -/
def distSq (aLat aLon bLat bLon : ℚ) : ℚ :=
  (aLat - bLat) ^ 2 + (aLon - bLon) ^ 2

/-- Squared distance from `(lat, lon)` to the midpoint of `seg`.  Reading
`points[seg.from]` at an out-of-range index is a JavaScript runtime error;
the model substitutes the origin there (unreachable for well-formed
routes). -/
def Route.segMidDistSq (r : Route) (lat lon : ℚ) (seg : RouteSegment) : ℚ :=
  let fromPt := (r.points[seg.fromIdx]?).getD { lat := 0, lon := 0 }
  let toPt := (r.points[seg.toIdx]?).getD { lat := 0, lon := 0 }
  distSq lat lon ((fromPt.lat + toPt.lat) / 2) ((fromPt.lon + toPt.lon) / 2)

/-- One step of the source's `minDist`/`currentSegIdx` scan.  The source
initialises `minDist = Infinity`, `currentSegIdx = -1`; the accumulator is
`none` until the first comparison `dist < Infinity` succeeds. -/
def scanMinStep (acc : Option (ℚ × ℕ)) (p : ℕ × ℚ) : Option (ℚ × ℕ) :=
  match acc with
  | none => some (p.2, p.1)
  | some (m, c) => if p.2 < m then some (p.2, p.1) else some (m, c)

/-- The full scan: index of the first minimum of the distance list. -/
def scanMin (ds : List ℚ) : Option (ℚ × ℕ) :=
  ds.enum.foldl scanMinStep none

/-- `Route.updateSegmentStates`: find the segment whose midpoint is nearest
the current position, mark it `ACTIVE`, earlier ones `DONE`, later ones
`PENDING`. -/
def Route.updateSegmentStates (r : Route) (currentLat currentLon : ℚ) : Route :=
  if r.segments.length = 0 then r
  else
    match scanMin (r.segments.map (r.segMidDistSq currentLat currentLon)) with
    | none => r
    | some (_, currentSegIdx) =>
      { r with
        segments := r.segments.enum.map fun p =>
          if p.1 < currentSegIdx then { p.2 with state := .DONE }
          else if p.1 = currentSegIdx then { p.2 with state := .ACTIVE }
          else { p.2 with state := .PENDING } }

/-- Structural well-formedness of the derived segment list: segment `j`
connects waypoints `j` and `j + 1`. -/
def segsWF (segs : List RouteSegment) : Prop :=
  ∀ j, ∀ hj : j < segs.length,
    (segs.get ⟨j, hj⟩).fromIdx = j ∧ (segs.get ⟨j, hj⟩).toIdx = j + 1


instance (segs : List RouteSegment) : Decidable (segsWF segs) := by
  unfold segsWF; infer_instance

/-- The spec's route invariant: segment count = waypoint count − 1 (or 0),
and segment `j` connects waypoints `j` and `j + 1`. -/
def RouteWF (r : Route) : Prop :=
  r.segments.length = r.points.length - 1 ∧ segsWF r.segments

instance (r : Route) : Decidable (RouteWF r) := by
  unfold RouteWF; infer_instance

/-- The route mutations named by the spec's derived-segments invariant. -/
inductive RouteOp where
  | add (lat lon : ℚ)
  | del (idx : ℤ)
  | split (idx : ℤ)

/-- Apply one mutation. -/
def Route.applyOp (r : Route) : RouteOp → Route
  | .add lat lon => r.addPoint lat lon
  | .del idx => r.deletePoint idx
  | .split idx => (r.splitSegment idx).2

/-- Apply a sequence of mutations, left to right. -/
def Route.runOps (r : Route) : List RouteOp → Route
  | [] => r
  | op :: t => (r.applyOp op).runOps t

/-- A waypoint index bounds a segment whose index lies in `[s, e]` (the
condition of the spec's lock invariant, stated directly on the data: the
enumeration pairs each segment with its index). -/
def boundsLockedSegment (r : Route) (s e i : ℤ) : Prop :=
  ∃ p ∈ r.segments.enum,
    s ≤ (p.1 : ℤ) ∧ (p.1 : ℤ) ≤ e ∧
      ((p.2.fromIdx : ℤ) = i ∨ (p.2.toIdx : ℤ) = i)

instance (r : Route) (s e i : ℤ) : Decidable (boundsLockedSegment r s e i) := by
  unfold boundsLockedSegment; infer_instance

/-- `meta` block of the scenario document built by `buildRouteData()`. -/
structure DocMeta where
  id : String
  created_at : String
  app_version : String
  name : String
deriving DecidableEq, Repr

/-- The `scenario` block of the document: `{meta, route:{points}, motion_profile}`. -/
structure ScenDoc where
  meta : DocMeta
  routePoints : List (ℚ × ℚ)
  motion_profile : MotionProfile
deriving DecidableEq, Repr

/-- The full save/load document `{schema_version, scenario:{...}}`. -/
structure RouteDoc where
  schema_version : ℕ
  scen : ScenDoc
deriving DecidableEq, Repr

/-- `buildRouteData()` from RouteControlPanel.vue.  `genId`, `createdAt` and
`fallbackName` stand for the environment-derived values (`crypto.randomUUID()`
and `Date.now()`-based strings), which a pure model receives as arguments. -/
def buildRouteData (r : Route) (genId createdAt fallbackName : String) : RouteDoc :=
  { schema_version := 1
    scen :=
      { meta :=
          { id := genId
            created_at := createdAt
            app_version := "0.1"
            name := if r.routeId = "" then fallbackName else r.routeId }
        routePoints := r.points.map fun p => (p.lat, p.lon)
        motion_profile := r.motionProfile } }

/-- `saveRoute()` from RouteControlPanel.vue: routes with fewer than 2 points
are rejected before any document is built. -/
def saveRoute (r : Route) (genId createdAt fallbackName : String) : Option RouteDoc :=
  if r.points.length < 2 then none
  else some (buildRouteData r genId createdAt fallbackName)

/-- `buildRouteFromPayload` from App.vue: add the waypoints in order, restore
the name, and adopt the saved motion profile only when its `type` is
`'simple'` (otherwise the default profile of `new Route()` remains). -/
def buildRouteFromPayload (wps : List (ℚ × ℚ)) (mp : MotionProfile)
    (rid : Option String) : Route :=
  let base := wps.foldl (fun acc wp => acc.addPoint wp.1 wp.2) Route.init
  let r1 := { base with
    routeId :=
      match rid with
      | some s => if s = "" then "Loaded Route" else s
      | none => "Loaded Route" }
  if mp.type = .simple then { r1 with motionProfile := mp } else r1

/-- `handleLoadRoute` from App.vue: validates `schema_version === 1` (the
points field is a list by construction here) and rebuilds the route. -/
def handleLoadRoute (doc : RouteDoc) : Option Route :=
  if doc.schema_version ≠ 1 then none
  else
    some (buildRouteFromPayload doc.scen.routePoints doc.scen.motion_profile
      (some doc.scen.meta.name))

/-- A message sent by the WebSocket client. -/
structure WsClientMessage where
  type : String
  topics : List String
deriving DecidableEq, Repr

/-- The messages `connectWs`'s `onopen` handler sends on a successful
connection (App.vue): a single subscribe message. -/
def connectWsOnOpenMessages : List WsClientMessage :=
  [{ type := "subscribe", topics := ["state", "data", "status"] }]

/-- Delete a key from the ordered entry list of a JavaScript `Map`
(iteration order is insertion order; re-insertion appends at the back). -/
def mapDelete [DecidableEq K] (l : List (K × V)) (k : K) : List (K × V) :=
  l.eraseP fun p => decide (p.1 = k)

/-- `LRUCache` from the frontend utility module. -/
structure LRUCache (K V : Type) where
  cache : List (K × V)
  maxSize : ℕ

/-- `LRUCache.get`: on a hit, move the entry to the back (most recent). -/
def LRUCache.get [DecidableEq K] (c : LRUCache K V) (key : K) :
    Option V × LRUCache K V :=
  match c.cache.find? fun p => decide (p.1 = key) with
  | none => (none, c)
  | some kv =>
    (some kv.2, { c with cache := mapDelete c.cache key ++ [(key, kv.2)] })

/-- The append-then-evict step of `LRUCache.set`: append the new entry and,
when the size now exceeds `maxSize`, delete the first (least recent) key. -/
def lruInsertTrim [DecidableEq K] (c1 : List (K × V)) (maxSize : ℕ)
    (key : K) (value : V) : List (K × V) :=
  let c2 := c1 ++ [(key, value)]
  if maxSize < c2.length then
    match c2 with
    | [] => c2
    | p :: _ => mapDelete c2 p.1
  else c2

/-- `LRUCache.set`: delete any existing entry, append the new one
(`lruInsertTrim`), and evict the least-recently-used (front) entry when the
size exceeds `maxSize`. -/
def LRUCache.set [DecidableEq K] (c : LRUCache K V) (key : K) (value : V) :
    LRUCache K V :=
  let c1 := if c.cache.any fun p => decide (p.1 = key) then mapDelete c.cache key
            else c.cache
  { c with cache := lruInsertTrim c1 c.maxSize key value }

/-- `LRUCache.clear`. -/
def LRUCache.clear (c : LRUCache K V) : LRUCache K V := { c with cache := [] }

/-- `LRUCache.size`. -/
def LRUCache.size (c : LRUCache K V) : ℕ := c.cache.length

/-- `new LRUCache(maxSize)`. -/
def LRUCache.empty (K V : Type) (maxSize : ℕ) : LRUCache K V := ⟨[], maxSize⟩

/-- The cache operations of the public interface. -/
inductive CacheOp (K V : Type) where
  | get (k : K)
  | set (k : K) (v : V)
  | clear

/-- Apply one cache operation (dropping `get`'s returned value). -/
def LRUCache.applyOp [DecidableEq K] (c : LRUCache K V) : CacheOp K V → LRUCache K V
  | .get k => (c.get k).2
  | .set k v => c.set k v
  | .clear => c.clear

/-- Apply a sequence of cache operations, left to right. -/
def LRUCache.runOps [DecidableEq K] (c : LRUCache K V) :
    List (CacheOp K V) → LRUCache K V
  | [] => c
  | op :: t => (c.applyOp op).runOps t

/-- Internal invariant of the cache: `Map` keys are distinct, and the entry
count never exceeds the capacity. -/
def LRUCache.Inv (c : LRUCache K V) : Prop :=
  (c.cache.map Prod.fst).Nodup ∧ c.cache.length ≤ c.maxSize

/-- `MotionSample` of the spec's data model (§3). -/
structure MotionSample where
  t : ℚ
  lat : ℚ
  lon : ℚ
  speed_mps : ℚ
  bearing_deg : ℚ
  segment_index : ℕ
deriving DecidableEq, Repr

/-- The integrator's input errors (spec §4.1 / §7). -/
inductive IntegrateError where
  | invalidRoute
  | invalidProfile
deriving DecidableEq, Repr

/-- Deterministic rational stand-in for `Math.sqrt` (four Newton steps);
numerical accuracy is irrelevant to the claims proved about the integrator. -/
def ratSqrtStep (x g : ℚ) : ℚ := if g = 0 then 0 else (g + x / g) / 2

/-- See `ratSqrtStep`. -/
def ratSqrt (x : ℚ) : ℚ :=
  if x ≤ 0 then 0
  else ratSqrtStep x (ratSqrtStep x (ratSqrtStep x (ratSqrtStep x (max x 1))))

/-- Deterministic rational stand-in for the atan2-based bearing of a
displacement, in degrees. -/
def bearingDeg (dLat dLon : ℚ) : ℚ :=
  if |dLat| + |dLon| = 0 then 0
  else if 0 ≤ dLat then 90 * dLon / (|dLat| + |dLon|)
  else 180 - 90 * dLon / (|dLat| + |dLon|)

/-- km/h to m/s. -/
def kmhToMps (x : ℚ) : ℚ := x * 1000 / 3600

/-- The system-wide equirectangular scale: metres per degree. -/
def METERS_PER_DEG : ℚ := 111000

/-- Waypoint lookup with an origin default (indices stay in range in use). -/
def wpAt (route : List (ℚ × ℚ)) (i : ℕ) : ℚ × ℚ := route.getD i (0, 0)

/-- Length of segment `i` of the polyline, in metres. -/
def segLenM (route : List (ℚ × ℚ)) (i : ℕ) : ℚ :=
  let a := wpAt route i
  let b := wpAt route (i + 1)
  METERS_PER_DEG * ratSqrt (distSq a.1 a.2 b.1 b.2)

/-- Bearing of segment `i` of the polyline, in degrees. -/
def segBearing (route : List (ℚ × ℚ)) (i : ℕ) : ℚ :=
  let a := wpAt route i
  let b := wpAt route (i + 1)
  bearingDeg (b.1 - a.1) (b.2 - a.2)

/-- Position `d` metres into segment `i` (linear interpolation; a zero-length
segment is its own start point). -/
def posAt (route : List (ℚ × ℚ)) (i : ℕ) (d : ℚ) : ℚ × ℚ :=
  let a := wpAt route i
  let b := wpAt route (i + 1)
  let len := segLenM route i
  if len = 0 then a
  else (a.1 + (b.1 - a.1) * d / len, a.2 + (b.2 - a.2) * d / len)

/-- The spec's turn speed cap (§4.1), converted to m/s:
`max(min_turn_speed_kmh, cruise_speed_kmh − turn_slowdown_factor_per_deg·|Δbearing|)`. -/
def turnCap (p : MotionParams) (db : ℚ) : ℚ :=
  kmhToMps (max p.min_turn_speed_kmh
    (p.cruise_speed_kmh - p.turn_slowdown_factor_per_deg * |db|))

/-- Integrator loop state: current segment, metres into it, speed, clock and
smoothed bearing. -/
structure IntState where
  segIdx : ℕ
  distInSeg : ℚ
  v : ℚ
  t : ℚ
  bearing : ℚ
deriving DecidableEq, Repr

/-- Modelled from the spec: one fixed-`dt_s` tick of the integrator (§4.1).
The backend integrator implementation is absent from the repository snapshot
(only the UI sources are under src/), so this follows the spec's prose:
speed advances toward the lesser of cruise speed and the upcoming turn cap
(accelerating with `accel_mps2`, braking with `decel_mps2` once within the
lookahead braking distance, and decelerating to 0 toward the final
waypoint); the bearing interpolates toward the segment bearing at
`turn_rate_deg_s`; the position advances by `v·dt` of arc length. -/
def integrateTick (route : List (ℚ × ℚ)) (p : MotionParams) (dt : ℚ)
    (st : IntState) : IntState :=
  let nSegs := route.length - 1
  let cruise := kmhToMps p.cruise_speed_kmh
  let capNext : ℚ :=
    if st.segIdx + 1 < nSegs then
      turnCap p (segBearing route (st.segIdx + 1) - segBearing route st.segIdx)
    else 0
  let remainingInSeg := segLenM route st.segIdx - st.distInSeg
  let brakeDist := (st.v ^ 2 - capNext ^ 2) / (2 * p.decel_mps2)
  let target := if remainingInSeg ≤ brakeDist then capNext else cruise
  let v1 := if st.v < target then min target (st.v + p.accel_mps2 * dt)
            else max target (st.v - p.decel_mps2 * dt)
  let v2 := min (max v1 0) cruise
  let targetBearing := segBearing route st.segIdx
  let db := targetBearing - st.bearing
  let bearing1 :=
    if |db| ≤ p.turn_rate_deg_s * dt then targetBearing
    else st.bearing + (if 0 ≤ db then p.turn_rate_deg_s * dt
                       else -(p.turn_rate_deg_s * dt))
  let d := st.distInSeg + v2 * dt
  if segLenM route st.segIdx ≤ d ∧ st.segIdx + 1 ≤ nSegs then
    { segIdx := st.segIdx + 1, distInSeg := d - segLenM route st.segIdx
      v := v2, t := st.t + dt, bearing := bearing1 }
  else
    { st with distInSeg := d, v := v2, t := st.t + dt, bearing := bearing1 }

/-- Modelled from the spec: the fuelled integration loop, emitting one
`MotionSample` per tick and a final sample exactly at the last waypoint
(spec §4.1; fuel bounds the recursion, see `integrate`). -/
def integrateGo (route : List (ℚ × ℚ)) (p : MotionParams) (dt : ℚ) :
    ℕ → IntState → List MotionSample
  | 0, _ => []
  | fuel + 1, st =>
    let nSegs := route.length - 1
    if nSegs ≤ st.segIdx then
      let wp := wpAt route nSegs
      [{ t := st.t, lat := wp.1, lon := wp.2, speed_mps := 0
         bearing_deg := st.bearing, segment_index := nSegs - 1 }]
    else
      let pos := posAt route st.segIdx st.distInSeg
      { t := st.t, lat := pos.1, lon := pos.2, speed_mps := st.v
        bearing_deg := st.bearing, segment_index := st.segIdx } ::
        integrateGo route p dt fuel (integrateTick route p dt st)

/-- Modelled from the spec: the initial hold phase — hold position at the
first waypoint for `start_hold_s` seconds at `start_speed_kmh` (§4.1). -/
def holdSamples (route : List (ℚ × ℚ)) (p : MotionParams) (dt : ℚ) :
    List MotionSample :=
  let wp := wpAt route 0
  (List.range (⌈p.start_hold_s / dt⌉.toNat)).map fun k =>
    { t := k * dt, lat := wp.1, lon := wp.2
      speed_mps := kmhToMps p.start_speed_kmh
      bearing_deg := segBearing route 0, segment_index := 0 }

/-- Modelled from the spec: `integrate(route, profile, dt_s)` (§4.1) — the
backend integrator is not part of the repository snapshot, so this is built
from the spec's contract: reject routes with fewer than 2 waypoints and
profiles with non-positive `accel_mps2`/`decel_mps2`, then emit the hold
phase followed by the fuelled fixed-step integration (the fuel, ample for
any terminating run, only bounds the recursion; the output is a pure
function of the three arguments). -/
def integrate (route : List (ℚ × ℚ)) (profile : MotionProfile) (dt_s : ℚ) :
    Except IntegrateError (List MotionSample) :=
  if route.length < 2 then .error .invalidRoute
  else if profile.params.accel_mps2 ≤ 0 ∨ profile.params.decel_mps2 ≤ 0 then
    .error .invalidProfile
  else
    let p := profile.params
    let hold := holdSamples route p dt_s
    let st0 : IntState :=
      { segIdx := 0, distInSeg := 0, v := kmhToMps p.start_speed_kmh
        t := hold.length * dt_s, bearing := segBearing route 0 }
    .ok (hold ++ integrateGo route p dt_s 1000000 st0)

/-- A concrete two-point route (one segment), used as test input below. -/
def R2 : Route := (Route.init.addPoint 0 0).addPoint 1 1

/-- A concrete three-point route (two segments), used as test input below. -/
def R3 : Route := ((Route.init.addPoint 0 0).addPoint 1 1).addPoint 2 2

/-- `R2` with an `'advance'`-typed motion profile whose parameters differ
from the defaults. -/
def RAdv : Route :=
  { R2 with
    motionProfile :=
      { type := .advance
        params := { createDefaultMotionProfile.params with cruise_speed_kmh := 99 } } }

theorem isPointLocked_iff_boundsLockedSegment (r : Route) (s e i : ℤ)
    (h : r.simulatingSegmentRange = some (s, e)) :
    r.isPointLocked i = true ↔ boundsLockedSegment r s e i := by
  unfold Route.isPointLocked boundsLockedSegment
  rw [h, List.any_eq_true]
  constructor
  · rintro ⟨p, hp, hpred⟩
    refine ⟨p, hp, ?_⟩
    have h' : (s ≤ (p.1 : ℤ) ∧ (p.1 : ℤ) ≤ e) ∧
        ((p.2.fromIdx : ℤ) = i ∨ (p.2.toIdx : ℤ) = i) := by simpa using hpred
    exact ⟨h'.1.1, h'.1.2, h'.2⟩
  · rintro ⟨p, hp, h1, h2, h3⟩
    exact ⟨p, hp, by simp [h1, h2, h3]⟩

theorem isSegmentLocked_iff (r : Route) (s e : ℤ)
    (h : r.simulatingSegmentRange = some (s, e)) (i : ℤ) :
    r.isSegmentLocked i = true ↔
      0 ≤ i ∧ i.toNat < r.segments.length ∧ s ≤ i ∧ i ≤ e := by
  unfold Route.isSegmentLocked zget
  rw [h]
  by_cases h0 : 0 ≤ i
  · simp only [if_pos h0]
    by_cases hlt : i.toNat < r.segments.length
    · obtain ⟨seg, hseg⟩ : ∃ seg, r.segments[i.toNat]? = some seg :=
        ⟨_, List.getElem?_eq_getElem hlt⟩
      rw [hseg]
      simp [h0, hlt]
    · rw [List.getElem?_eq_none (by omega)]
      simp [h0, hlt]
  · simp only [if_neg h0]
    simp [h0]

theorem isSegmentLocked_of_none (r : Route)
    (h : r.simulatingSegmentRange = none) (i : ℤ) :
    r.isSegmentLocked i = false := by
  unfold Route.isSegmentLocked
  rw [h]

/-- C1: while a simulation is active with locked range `{s, e}`, `deletePoint i`
and `movePoint i` leave the route unchanged for every in-bounds waypoint
index `i` bounding a segment with index in `[s, e]`, and perform the
deletion/move for every in-bounds index that bounds no such segment. -/
theorem C1_locked_range_guards_mutation (r : Route) (s e i : ℤ) (lat lon : ℚ)
    (hRange : r.simulatingSegmentRange = some (s, e))
    (hi : 0 ≤ i ∧ i < (r.points.length : ℤ)) :
    (boundsLockedSegment r s e i →
      r.deletePoint i = r ∧ r.movePoint i lat lon = r) ∧
    (¬ boundsLockedSegment r s e i →
      (r.deletePoint i).points = r.points.eraseIdx i.toNat ∧
      ∃ p, r.points[i.toNat]? = some p ∧
        (r.movePoint i lat lon).points =
          r.points.set i.toNat { p with lat := lat, lon := lon }) := by
  have hlock := isPointLocked_iff_boundsLockedSegment r s e i hRange
  constructor
  · intro hB
    have htrue : r.isPointLocked i = true := hlock.mpr hB
    refine ⟨?_, ?_⟩
    · unfold Route.deletePoint
      rw [if_pos hi, if_pos htrue]
    · unfold Route.movePoint
      rw [if_pos hi, if_pos htrue]
  · intro hB
    have hfalse : r.isPointLocked i = false := by
      cases hh : r.isPointLocked i
      · rfl
      · exact absurd (hlock.mp hh) hB
    have hnat : i.toNat < r.points.length := by omega
    obtain ⟨p, hp⟩ : ∃ p, r.points[i.toNat]? = some p :=
      ⟨_, List.getElem?_eq_getElem hnat⟩
    refine ⟨?_, p, hp, ?_⟩
    · unfold Route.deletePoint
      rw [if_pos hi, if_neg (by simp [hfalse])]
      rfl
    · unfold Route.movePoint
      rw [if_pos hi, if_neg (by simp [hfalse])]
      simp [listModify, hp]

/-- C1 witness: on a 3-point route with only segment 0 locked, waypoint 2
bounds no locked segment and its deletion goes through. -/
theorem C1_witness :
    (R3.startSimulation 0 (some 0)).simulatingSegmentRange = some (0, 0) ∧
    (0 ≤ (2 : ℤ) ∧ (2 : ℤ) < ((R3.startSimulation 0 (some 0)).points.length : ℤ)) ∧
    ¬ boundsLockedSegment (R3.startSimulation 0 (some 0)) 0 0 2 ∧
    ((R3.startSimulation 0 (some 0)).deletePoint 2).points =
      (R3.startSimulation 0 (some 0)).points.eraseIdx 2 := by
  refine ⟨by decide, ⟨by decide, by decide⟩, by decide, ?_⟩
  exact ((C1_locked_range_guards_mutation (R3.startSimulation 0 (some 0)) 0 0 2 0 0
    (by decide) ⟨by decide, by decide⟩).2 (by decide)).1

/-- C3 (amended): with at least one segment, `startSimulation s none` locks
exactly the indices `s ≤ i ≤ segments.length − 1`, and
`startSimulation s (some e)` locks exactly the indices with
`s ≤ i ≤ e` *and* `i ≤ segments.length − 1` (indices past the last segment
are never reported locked). -/
theorem C3_startSimulation_lock_range (r : Route) (hlen : 1 ≤ r.segments.length) :
    (∀ s i : ℕ, (r.startSimulation (s : ℤ) none).isSegmentLocked (i : ℤ) = true ↔
        s ≤ i ∧ i ≤ r.segments.length - 1) ∧
    (∀ s i e : ℕ, (r.startSimulation (s : ℤ) (some (e : ℤ))).isSegmentLocked (i : ℤ) = true ↔
        s ≤ i ∧ i ≤ e ∧ i ≤ r.segments.length - 1) := by
  have hmap : ∀ (a : ℤ) (o : Option ℤ),
      (r.startSimulation a o).segments.length = r.segments.length := by
    intro a o
    simp [Route.startSimulation]
  constructor
  · intro s i
    rw [isSegmentLocked_iff _ (s : ℤ) ((r.segments.length : ℤ) - 1) rfl (i : ℤ), hmap]
    omega
  · intro s i e
    rw [isSegmentLocked_iff _ (s : ℤ) (e : ℤ) rfl (i : ℤ), hmap]
    omega

/-- C3 counterexample: on a route with one segment, `startSimulation(0, 5)`
leaves index 3 unlocked even though `0 ≤ 3 ≤ 5`, refuting the unamended
claim that the lock covers all of `s ≤ i ≤ e`. -/
theorem C3_counterexample :
    1 ≤ R2.segments.length ∧
    ((0 : ℤ) ≤ 3 ∧ (3 : ℤ) ≤ 5) ∧
    (R2.startSimulation 0 (some 5)).isSegmentLocked 3 = false := by decide

/-- C3 witness: the amended characterization evaluated on the one-segment
route `R2`. -/
theorem C3_witness :
    1 ≤ R2.segments.length ∧
    ((R2.startSimulation ((0 : ℕ) : ℤ) none).isSegmentLocked (((0 : ℕ) : ℤ)) = true ↔
      0 ≤ 0 ∧ 0 ≤ R2.segments.length - 1) :=
  ⟨by decide, (C3_startSimulation_lock_range R2 (by decide)).1 0 0⟩

/-- C4: after `stopSimulation`, no segment or point is reported locked at any
index, and every segment state is reset to `PENDING`. -/
theorem C4_stopSimulation_clears_locks (r : Route) (i : ℤ) :
    (r.stopSimulation).isSegmentLocked i = false ∧
    (r.stopSimulation).isPointLocked i = false ∧
    ∀ seg ∈ (r.stopSimulation).segments, seg.state = .PENDING := by
  refine ⟨rfl, rfl, ?_⟩
  intro seg hseg
  simp only [Route.stopSimulation, List.mem_map] at hseg
  obtain ⟨s, -, rfl⟩ := hseg
  rfl

/-- C6: the integrator is a pure function of route, profile and `dt_s`: two
calls with identical inputs yield identical sample sequences. -/
theorem C6_integrate_deterministic (route₁ route₂ : List (ℚ × ℚ))
    (p₁ p₂ : MotionProfile) (d₁ d₂ : ℚ)
    (hr : route₁ = route₂) (hp : p₁ = p₂) (hd : d₁ = d₂) :
    integrate route₁ p₁ d₁ = integrate route₂ p₂ d₂ := by
  rw [hr, hp, hd]

/-- C6 witness: determinism instantiated on a concrete two-point route. -/
theorem C6_witness :
    integrate [((0 : ℚ), (0 : ℚ)), (1, 1)] createDefaultMotionProfile (1 / 10) =
      integrate [((0 : ℚ), (0 : ℚ)), (1, 1)] createDefaultMotionProfile (1 / 10) :=
  C6_integrate_deterministic _ _ _ _ _ _ rfl rfl rfl

/-- C7: on a successful WebSocket connection the client sends exactly one
subscribe message, `{type: "subscribe", topics: ["state", "data", "status"]}`. -/
theorem C7_subscribe_message :
    connectWsOnOpenMessages.length = 1 ∧
    connectWsOnOpenMessages =
      [{ type := "subscribe", topics := ["state", "data", "status"] }] :=
  ⟨rfl, rfl⟩

theorem listModify_length (l : List α) (n : ℕ) (f : α → α) :
    (listModify l n f).length = l.length := by
  unfold listModify
  cases hg : l[n]? with
  | none => rfl
  | some a => exact List.length_set l n (f a)

theorem listModify_getElem? (l : List α) (n : ℕ) (f : α → α) (j : ℕ) :
    (listModify l n f)[j]? = if j = n then (l[j]?).map f else l[j]? := by
  unfold listModify
  cases hg : l[n]? with
  | none =>
    by_cases hj : j = n
    · subst hj
      rw [hg, if_pos rfl]
      rfl
    · rw [if_neg hj]
  | some a =>
    rw [List.getElem?_set]
    have hn : n < l.length := (List.getElem?_eq_some.mp hg).1
    by_cases hj : j = n
    · subst hj
      rw [if_pos rfl, if_pos rfl, if_pos hn, hg]
      rfl
    · rw [if_neg (by omega), if_neg hj]

theorem segsWF_iff_getElem? (l : List RouteSegment) :
    segsWF l ↔ ∀ j seg, l[j]? = some seg → seg.fromIdx = j ∧ seg.toIdx = j + 1 := by
  unfold segsWF
  constructor
  · intro h j seg hseg
    obtain ⟨hj, hget⟩ := List.getElem?_eq_some.mp hseg
    have h2 := h j hj
    rw [← hget]
    exact h2
  · intro h j hj
    exact h j _ (List.getElem?_eq_getElem hj)

theorem range_map_getElem? (m : ℕ) (g : ℕ → α) (j : ℕ) :
    (((List.range m).map g))[j]? = if j < m then some (g j) else none := by
  rw [List.getElem?_map]
  by_cases h : j < m
  · rw [List.getElem?_range h, if_pos h]
    rfl
  · rw [if_neg h, List.getElem?_eq_none (by simpa using h)]
    rfl

theorem segsWF_range_map (m : ℕ) (sel : ℕ → Bool) (st : ℕ → SegmentState) :
    segsWF ((List.range m).map fun i =>
      { fromIdx := i, toIdx := i + 1, isSelected := sel i, state := st i }) := by
  rw [segsWF_iff_getElem?]
  intro j seg hseg
  rw [range_map_getElem?] at hseg
  by_cases h : j < m
  · rw [if_pos h] at hseg
    cases hseg
    exact ⟨rfl, rfl⟩
  · rw [if_neg h] at hseg
    cases hseg

theorem segsWF_listModify_select (l : List RouteSegment) (n : ℕ)
    (h : segsWF l) :
    segsWF (listModify l n fun s => { s with isSelected := true }) := by
  rw [segsWF_iff_getElem?] at h ⊢
  intro j seg hseg
  rw [listModify_getElem?] at hseg
  by_cases hj : j = n
  · rw [if_pos hj] at hseg
    cases hg : l[j]? with
    | none => rw [hg] at hseg; cases hseg
    | some a =>
      rw [hg] at hseg
      cases hseg
      exact h j a hg
  · rw [if_neg hj] at hseg
    exact h j seg hseg

theorem points_rebuildSegments (r : Route) :
    (r.rebuildSegments).points = r.points := rfl

theorem routeWF_rebuildSegments (r : Route) : RouteWF (r.rebuildSegments) := by
  constructor
  · simp [Route.rebuildSegments]
  · unfold Route.rebuildSegments
    exact segsWF_range_map _ _ _

theorem routeWF_addPoint (r : Route) (lat lon : ℚ) : RouteWF (r.addPoint lat lon) :=
  routeWF_rebuildSegments _

theorem routeWF_deletePoint (r : Route) (h : RouteWF r) (idx : ℤ) :
    RouteWF (r.deletePoint idx) := by
  unfold Route.deletePoint
  split
  · split
    · exact h
    · exact routeWF_rebuildSegments _
  · exact h

theorem splitNewSegments_length (old : List RouteSegment) (n m : ℕ) :
    (splitNewSegments old n m).length = m := by
  unfold splitNewSegments
  rw [List.length_map, List.length_range]

theorem splitNewSegments_getElem? (old : List RouteSegment) (n m j : ℕ) :
    (splitNewSegments old n m)[j]? =
      if j < m then
        some { fromIdx := j, toIdx := j + 1
               state := ((old[splitSourceIdx n j]?).getD
                 { fromIdx := 0, toIdx := 0 }).state }
      else none := by
  unfold splitNewSegments
  exact range_map_getElem? m _ j

theorem segsWF_splitNewSegments (old : List RouteSegment) (n m : ℕ) :
    segsWF (splitNewSegments old n m) := by
  unfold splitNewSegments
  exact segsWF_range_map m _ _

theorem listModify_select_state (l : List RouteSegment) (k j : ℕ) :
    ((listModify l k fun s => { s with isSelected := true })[j]?).map
        RouteSegment.state = (l[j]?).map RouteSegment.state := by
  rw [listModify_getElem?]
  by_cases hj : j = k
  · rw [if_pos hj]
    cases l[j]? <;> rfl
  · rw [if_neg hj]

theorem splitSelect_length (ns : List RouteSegment) (osel : Option ℕ) (n : ℕ)
    (pt : Option SelectionType) :
    (splitSelect ns osel n pt).1.length = ns.length := by
  unfold splitSelect
  cases osel with
  | none => rfl
  | some oldSel =>
    by_cases h1 : oldSel = n
    · simp only [if_pos h1]
      exact listModify_length _ _ _
    · by_cases h2 : n < oldSel
      · by_cases h3 : oldSel + 1 < ns.length
        · simp only [if_neg h1, if_pos h2, if_pos h3]
          exact listModify_length _ _ _
        · simp only [if_neg h1, if_pos h2, if_neg h3]
      · simp only [if_neg h1, if_neg h2]
        exact listModify_length _ _ _

theorem splitSelect_state (ns : List RouteSegment) (osel : Option ℕ) (n : ℕ)
    (pt : Option SelectionType) (j : ℕ) :
    ((splitSelect ns osel n pt).1[j]?).map RouteSegment.state =
      (ns[j]?).map RouteSegment.state := by
  unfold splitSelect
  cases osel with
  | none => rfl
  | some oldSel =>
    by_cases h1 : oldSel = n
    · simp only [if_pos h1]
      exact listModify_select_state _ _ _
    · by_cases h2 : n < oldSel
      · by_cases h3 : oldSel + 1 < ns.length
        · simp only [if_neg h1, if_pos h2, if_pos h3]
          exact listModify_select_state _ _ _
        · simp only [if_neg h1, if_pos h2, if_neg h3]
      · simp only [if_neg h1, if_neg h2]
        exact listModify_select_state _ _ _

theorem segsWF_splitSelect (ns : List RouteSegment) (osel : Option ℕ) (n : ℕ)
    (pt : Option SelectionType) (h : segsWF ns) :
    segsWF (splitSelect ns osel n pt).1 := by
  unfold splitSelect
  cases osel with
  | none => exact h
  | some oldSel =>
    by_cases h1 : oldSel = n
    · simp only [if_pos h1]
      exact segsWF_listModify_select _ _ h
    · by_cases h2 : n < oldSel
      · by_cases h3 : oldSel + 1 < ns.length
        · simp only [if_neg h1, if_pos h2, if_pos h3]
          exact segsWF_listModify_select _ _ h
        · simp only [if_neg h1, if_pos h2, if_neg h3]
          exact h
      · simp only [if_neg h1, if_neg h2]
        exact segsWF_listModify_select _ _ h

theorem splitSegment_fail (r : Route) (idx : ℤ)
    (hfail : ¬(r.simulatingSegmentRange = none ∧ 0 ≤ idx ∧
      idx < (r.segments.length : ℤ))) :
    r.splitSegment idx = (false, r) := by
  unfold Route.splitSegment
  by_cases hrange : r.simulatingSegmentRange = none
  · have hb : idx < 0 ∨ (r.segments.length : ℤ) ≤ idx := by
      by_contra hc
      push_neg at hc
      exact hfail ⟨hrange, by omega, by omega⟩
    rw [if_neg (not_not_intro hrange), if_pos hb]
  · rw [if_pos hrange]

theorem splitSegment_success (r : Route) (idx : ℤ)
    (hrange : r.simulatingSegmentRange = none)
    (h0 : 0 ≤ idx) (hlt : idx < (r.segments.length : ℤ))
    (fp tp : RoutePoint)
    (hfp : r.points[idx.toNat]? = some fp)
    (htp : r.points[idx.toNat + 1]? = some tp) :
    (r.splitSegment idx).1 = true ∧
    (r.splitSegment idx).2.points =
      r.points.insertIdx (idx.toNat + 1)
        { lat := (fp.lat + tp.lat) / 2, lon := (fp.lon + tp.lon) / 2 } ∧
    (r.splitSegment idx).2.points.length = r.points.length + 1 ∧
    (r.splitSegment idx).2.segments.length = r.points.length ∧
    segsWF (r.splitSegment idx).2.segments ∧
    ∀ j : ℕ, ((r.splitSegment idx).2.segments[j]?).map RouteSegment.state =
      if j < r.points.length then
        some (((r.segments[splitSourceIdx idx.toNat j]?).getD
          { fromIdx := 0, toIdx := 0 }).state)
      else none := by
  have hz1 : zget r.points idx = some fp := by
    unfold zget
    rw [if_pos h0]
    exact hfp
  have hz2 : zget r.points (idx + 1) = some tp := by
    unfold zget
    rw [if_pos (by omega)]
    have h' : (idx + 1).toNat = idx.toNat + 1 := by omega
    rw [h']
    exact htp
  have hlock : r.isSegmentLocked idx = false := isSegmentLocked_of_none r hrange idx
  have htp_lt : idx.toNat + 1 < r.points.length := (List.getElem?_eq_some.mp htp).1
  have hinslen : (r.points.insertIdx (idx.toNat + 1)
      { lat := (fp.lat + tp.lat) / 2, lon := (fp.lon + tp.lon) / 2
        : RoutePoint }).length = r.points.length + 1 :=
    List.length_insertIdx _ _ (by omega)
  unfold Route.splitSegment
  rw [if_neg (not_not_intro hrange), if_neg (by omega), if_neg (by simp [hlock]),
    hz1, hz2]
  refine ⟨rfl, rfl, hinslen, ?_, ?_, ?_⟩
  · rw [splitSelect_length, splitNewSegments_length, hinslen]
    omega
  · exact segsWF_splitSelect _ _ _ _ (segsWF_splitNewSegments _ _ _)
  · intro j
    rw [splitSelect_state, splitNewSegments_getElem?, hinslen, Nat.add_sub_cancel]
    by_cases hj : j < r.points.length
    · rw [if_pos hj, if_pos hj]
      rfl
    · rw [if_neg hj, if_neg hj]
      rfl

theorem routeWF_splitSegment (r : Route) (h : RouteWF r) (idx : ℤ) :
    RouteWF (r.splitSegment idx).2 := by
  by_cases hc : r.simulatingSegmentRange = none ∧ 0 ≤ idx ∧
      idx < (r.segments.length : ℤ)
  · obtain ⟨hrange, h0, hlt⟩ := hc
    have hpts : idx.toNat + 1 < r.points.length := by
      have h1 := h.1
      omega
    obtain ⟨fp, hfp⟩ : ∃ p, r.points[idx.toNat]? = some p :=
      ⟨_, List.getElem?_eq_getElem (by omega)⟩
    obtain ⟨tp, htp⟩ : ∃ p, r.points[idx.toNat + 1]? = some p :=
      ⟨_, List.getElem?_eq_getElem hpts⟩
    obtain ⟨-, -, hplen, hslen, hwf, -⟩ :=
      splitSegment_success r idx hrange h0 hlt fp tp hfp htp
    refine ⟨?_, hwf⟩
    rw [hslen, hplen]
    omega
  · rw [splitSegment_fail r idx hc]
    exact h

theorem routeWF_applyOp (r : Route) (h : RouteWF r) (op : RouteOp) :
    RouteWF (r.applyOp op) := by
  cases op with
  | add lat lon => exact routeWF_addPoint r lat lon
  | del idx => exact routeWF_deletePoint r h idx
  | split idx => exact routeWF_splitSegment r h idx

theorem routeWF_runOps (r : Route) (h : RouteWF r) (ops : List RouteOp) :
    RouteWF (r.runOps ops) := by
  induction ops generalizing r with
  | nil => exact h
  | cons op t ih => exact ih _ (routeWF_applyOp r h op)

/-- C2: after any sequence of `addPoint`/`deletePoint`/`splitSegment`
operations on a new route, the segment count equals the waypoint count − 1
(0 for an empty route) and segment `i` connects waypoints `i` and `i + 1`. -/
theorem C2_mutations_preserve_invariant (ops : List RouteOp) :
    RouteWF (Route.init.runOps ops) :=
  routeWF_runOps Route.init (by decide) ops

theorem getD_state_eq_map (segs : List RouteSegment) (k : ℕ) (hk : k < segs.length) :
    some (((segs[k]?).getD { fromIdx := 0, toIdx := 0 }).state) =
      (segs[k]?).map RouteSegment.state := by
  obtain ⟨seg, hseg⟩ : ∃ s, segs[k]? = some s := ⟨_, List.getElem?_eq_getElem hk⟩
  rw [hseg]
  rfl

/-- C8: `splitSegment idx` fails (returning `false` with the route unchanged)
whenever a simulation range is active or `idx` is out of bounds; otherwise it
succeeds, inserting exactly the arithmetic midpoint of the split segment's
endpoints at index `idx + 1`, growing both the point and segment counts by
one, with the two replacement segments inheriting the split segment's state
and every other segment keeping its own. -/
theorem C8_splitSegment_spec (r : Route) (idx : ℤ) (hWF : RouteWF r) :
    (¬(r.simulatingSegmentRange = none ∧ 0 ≤ idx ∧
        idx < (r.segments.length : ℤ)) →
      r.splitSegment idx = (false, r)) ∧
    ((r.simulatingSegmentRange = none ∧ 0 ≤ idx ∧
        idx < (r.segments.length : ℤ)) →
      (r.splitSegment idx).1 = true ∧
      (∀ fp tp, r.points[idx.toNat]? = some fp →
        r.points[idx.toNat + 1]? = some tp →
        (r.splitSegment idx).2.points =
          r.points.insertIdx (idx.toNat + 1)
            { lat := (fp.lat + tp.lat) / 2, lon := (fp.lon + tp.lon) / 2 }) ∧
      (r.splitSegment idx).2.points.length = r.points.length + 1 ∧
      (r.splitSegment idx).2.segments.length = r.segments.length + 1 ∧
      ∀ j : ℕ,
        (j < idx.toNat →
          ((r.splitSegment idx).2.segments[j]?).map RouteSegment.state =
            (r.segments[j]?).map RouteSegment.state) ∧
        ((j = idx.toNat ∨ j = idx.toNat + 1) →
          ((r.splitSegment idx).2.segments[j]?).map RouteSegment.state =
            (r.segments[idx.toNat]?).map RouteSegment.state) ∧
        (idx.toNat + 1 < j →
          ((r.splitSegment idx).2.segments[j]?).map RouteSegment.state =
            (r.segments[j - 1]?).map RouteSegment.state)) := by
  constructor
  · exact splitSegment_fail r idx
  · rintro ⟨hrange, h0, hlt⟩
    have hWF1 := hWF.1
    have hpts : idx.toNat + 1 < r.points.length := by omega
    obtain ⟨fp, hfp⟩ : ∃ p, r.points[idx.toNat]? = some p :=
      ⟨_, List.getElem?_eq_getElem (by omega)⟩
    obtain ⟨tp, htp⟩ : ∃ p, r.points[idx.toNat + 1]? = some p :=
      ⟨_, List.getElem?_eq_getElem hpts⟩
    obtain ⟨h1, h2, h3, h4, -, h6⟩ :=
      splitSegment_success r idx hrange h0 hlt fp tp hfp htp
    refine ⟨h1, ?_, h3, by omega, ?_⟩
    · intro fp' tp' hfp' htp'
      injection hfp'.symm.trans hfp with hfpe
      injection htp'.symm.trans htp with htpe
      subst hfpe
      subst htpe
      exact h2
    · intro j
      refine ⟨?_, ?_, ?_⟩
      · intro hj
        rw [h6 j, if_pos (by omega)]
        have hsrc : splitSourceIdx idx.toNat j = j := by
          unfold splitSourceIdx
          rw [if_neg (by omega), if_pos (by omega)]
        rw [hsrc]
        exact getD_state_eq_map _ _ (by omega)
      · intro hj
        rw [h6 j, if_pos (by omega)]
        have hsrc : splitSourceIdx idx.toNat j = idx.toNat := by
          unfold splitSourceIdx
          rw [if_pos (by omega)]
        rw [hsrc]
        exact getD_state_eq_map _ _ (by omega)
      · intro hj
        by_cases hjlen : j < r.points.length
        · rw [h6 j, if_pos hjlen]
          have hsrc : splitSourceIdx idx.toNat j = j - 1 := by
            unfold splitSourceIdx
            rw [if_neg (by omega), if_neg (by omega)]
          rw [hsrc]
          exact getD_state_eq_map _ _ (by omega)
        · rw [h6 j, if_neg hjlen, List.getElem?_eq_none (by omega)]
          rfl

/-- C8 witness: splitting segment 0 of the three-point route succeeds. -/
theorem C8_witness :
    RouteWF R3 ∧
    (R3.simulatingSegmentRange = none ∧ 0 ≤ (0 : ℤ) ∧
      (0 : ℤ) < (R3.segments.length : ℤ)) ∧
    (R3.splitSegment 0).1 = true := by
  refine ⟨by decide, ⟨by decide, by decide, by decide⟩, ?_⟩
  exact ((C8_splitSegment_spec R3 0 (by decide)).2
    ⟨by decide, by decide, by decide⟩).1

theorem mapDelete_keys_nodup [DecidableEq K] (l : List (K × V)) (k : K)
    (h : (l.map Prod.fst).Nodup) : ((mapDelete l k).map Prod.fst).Nodup :=
  h.sublist ((List.eraseP_sublist l).map Prod.fst)

theorem mapDelete_length_of_mem [DecidableEq K] (l : List (K × V)) (k : K)
    (h : k ∈ l.map Prod.fst) : (mapDelete l k).length = l.length - 1 := by
  obtain ⟨a, ha, hk⟩ := List.mem_map.mp h
  exact List.length_eraseP_of_mem ha (by rw [decide_eq_true_eq]; exact hk)

theorem not_mem_keys_mapDelete [DecidableEq K] (l : List (K × V)) (k : K) :
    (l.map Prod.fst).Nodup → k ∉ (mapDelete l k).map Prod.fst := by
  induction l with
  | nil =>
    intro _ hc
    simp [mapDelete] at hc
  | cons a t ih =>
    intro h
    rw [List.map_cons] at h
    have hpair := List.nodup_cons.mp h
    rw [mapDelete, List.eraseP_cons]
    by_cases hk : a.1 = k
    · rw [decide_eq_true hk]
      simp only [cond_true]
      rw [← hk]
      exact hpair.1
    · rw [decide_eq_false hk]
      simp only [cond_false, List.map_cons]
      intro hc
      rcases List.mem_cons.mp hc with h1 | h2
      · exact hk h1.symm
      · exact ih hpair.2 h2

theorem find?_key_eq_none [DecidableEq K] (l : List (K × V)) (k : K)
    (h : k ∉ l.map Prod.fst) :
    (l.find? fun p => decide (p.1 = k)) = none := by
  rw [List.find?_eq_none]
  intro x hx
  simp only [decide_eq_true_eq]
  intro hc
  exact h (List.mem_map.mpr ⟨x, hx, hc⟩)

theorem keys_append_single_nodup (l : List K) (k : K) (hnd : l.Nodup)
    (hk : k ∉ l) : (l ++ [k]).Nodup := by
  rw [List.nodup_append]
  exact ⟨hnd, List.nodup_singleton k, by simpa [List.disjoint_singleton] using hk⟩

theorem lruInsertTrim_spec [DecidableEq K] (c1 : List (K × V)) (maxSize : ℕ)
    (k : K) (v : V) (h1nd : (c1.map Prod.fst).Nodup)
    (h1k : k ∉ c1.map Prod.fst) (h1len : c1.length ≤ maxSize) :
    ((lruInsertTrim c1 maxSize k v).map Prod.fst).Nodup ∧
    (lruInsertTrim c1 maxSize k v).length ≤ maxSize ∧
    (1 ≤ maxSize →
      ((lruInsertTrim c1 maxSize k v).find? fun p => decide (p.1 = k)) =
        some (k, v)) := by
  have h2nd : ((c1 ++ [(k, v)]).map Prod.fst).Nodup := by
    rw [List.map_append]
    exact keys_append_single_nodup _ _ h1nd (by simpa using h1k)
  have hfind2 : ((c1 ++ [(k, v)]).find? fun p => decide (p.1 = k)) = some (k, v) := by
    rw [List.find?_append, find?_key_eq_none c1 k h1k]
    simp [List.find?]
  unfold lruInsertTrim
  dsimp only
  by_cases hbig : maxSize < (c1 ++ [(k, v)]).length
  · rw [if_pos hbig]
    cases c1 with
    | nil =>
      have hms : maxSize = 0 := by
        simp at hbig
        omega
      simp only [List.nil_append]
      have hdel : mapDelete [(k, v)] k = ([] : List (K × V)) := by
        unfold mapDelete
        rw [List.eraseP_cons, decide_eq_true rfl]
        rfl
      rw [hdel]
      refine ⟨List.nodup_nil, by omega, ?_⟩
      intro hmax
      omega
    | cons a t =>
      have hcons : (a :: t) ++ [(k, v)] = a :: (t ++ [(k, v)]) := List.cons_append a t _
      rw [hcons]
      dsimp only
      have hdel : mapDelete (a :: (t ++ [(k, v)])) a.1 = t ++ [(k, v)] := by
        unfold mapDelete
        rw [List.eraseP_cons, decide_eq_true rfl]
        rfl
      rw [hdel]
      have htailnd : ((t ++ [(k, v)]).map Prod.fst).Nodup := by
        rw [hcons, List.map_cons] at h2nd
        exact (List.nodup_cons.mp h2nd).2
      have hkt : k ∉ t.map Prod.fst := by
        intro hc
        exact h1k (by simp [hc])
      refine ⟨htailnd, ?_, ?_⟩
      · have h4 : t.length + 1 ≤ maxSize := by simpa using h1len
        have h5 : (t ++ [(k, v)]).length = t.length + 1 := by simp
        omega
      · intro _
        rw [List.find?_append, find?_key_eq_none t k hkt]
        simp [List.find?]
  · rw [if_neg hbig]
    refine ⟨h2nd, ?_, fun _ => hfind2⟩
    simp only [List.length_append, List.length_singleton] at hbig ⊢
    omega

theorem lru_set_maxSize [DecidableEq K] (c : LRUCache K V) (k : K) (v : V) :
    (c.set k v).maxSize = c.maxSize := rfl

theorem lru_set_cache [DecidableEq K] (c : LRUCache K V) (k : K) (v : V) :
    (c.set k v).cache =
      lruInsertTrim
        (if c.cache.any fun p => decide (p.1 = k) then mapDelete c.cache k
         else c.cache) c.maxSize k v := rfl

theorem lru_c1_facts [DecidableEq K] (c : LRUCache K V) (k : K)
    (hnd : (c.cache.map Prod.fst).Nodup) :
    (((if c.cache.any fun p => decide (p.1 = k) then mapDelete c.cache k
        else c.cache)).map Prod.fst).Nodup ∧
    k ∉ ((if c.cache.any fun p => decide (p.1 = k) then mapDelete c.cache k
        else c.cache)).map Prod.fst ∧
    ((if c.cache.any fun p => decide (p.1 = k) then mapDelete c.cache k
        else c.cache)).length ≤ c.cache.length := by
  by_cases hmem : c.cache.any fun p => decide (p.1 = k)
  · rw [if_pos hmem]
    have hkmem : k ∈ c.cache.map Prod.fst := by
      obtain ⟨p, hp, hpk⟩ := List.any_eq_true.mp hmem
      rw [decide_eq_true_eq] at hpk
      exact List.mem_map.mpr ⟨p, hp, hpk⟩
    refine ⟨mapDelete_keys_nodup _ _ hnd, not_mem_keys_mapDelete _ _ hnd, ?_⟩
    rw [mapDelete_length_of_mem _ _ hkmem]
    omega
  · rw [if_neg hmem]
    refine ⟨hnd, ?_, le_refl _⟩
    intro hc
    obtain ⟨p, hp, hpk⟩ := List.mem_map.mp hc
    exact hmem (List.any_eq_true.mpr ⟨p, hp, decide_eq_true hpk⟩)

theorem lru_set_spec [DecidableEq K] (c : LRUCache K V) (h : c.Inv)
    (k : K) (v : V) :
    (c.set k v).Inv ∧ (1 ≤ c.maxSize → ((c.set k v).get k).1 = some v) := by
  obtain ⟨hnd, hlen⟩ := h
  obtain ⟨h1nd, h1k, h1len⟩ := lru_c1_facts c k hnd
  have hspec := lruInsertTrim_spec _ c.maxSize k v h1nd h1k (le_trans h1len hlen)
  refine ⟨⟨?_, ?_⟩, ?_⟩
  · rw [lru_set_cache]
    exact hspec.1
  · show (c.set k v).cache.length ≤ (c.set k v).maxSize
    rw [lru_set_cache, lru_set_maxSize]
    exact hspec.2.1
  · intro hmax
    unfold LRUCache.get
    rw [lru_set_cache, hspec.2.2 hmax]

theorem lru_get_spec [DecidableEq K] (c : LRUCache K V) (h : c.Inv) (k : K) :
    ((c.get k).2).Inv := by
  obtain ⟨hnd, hlen⟩ := h
  unfold LRUCache.get
  cases hf : c.cache.find? fun p => decide (p.1 = k) with
  | none => exact ⟨hnd, hlen⟩
  | some kv =>
    have hkv1 : kv.1 = k := by
      have h2 := List.find?_some hf
      rwa [decide_eq_true_eq] at h2
    have hmem := List.mem_of_find?_eq_some hf
    have hkmem : k ∈ c.cache.map Prod.fst := List.mem_map.mpr ⟨kv, hmem, hkv1⟩
    have hpos : 1 ≤ c.cache.length := List.length_pos.mpr (List.ne_nil_of_mem hmem)
    constructor
    · rw [List.map_append]
      exact keys_append_single_nodup _ _ (mapDelete_keys_nodup _ _ hnd)
        (not_mem_keys_mapDelete _ _ hnd)
    · rw [List.length_append, mapDelete_length_of_mem _ _ hkmem]
      simp only [List.length_singleton]
      omega

theorem lru_applyOp_inv [DecidableEq K] (c : LRUCache K V) (h : c.Inv)
    (op : CacheOp K V) : (c.applyOp op).Inv := by
  cases op with
  | get k => exact lru_get_spec c h k
  | set k v => exact (lru_set_spec c h k v).1
  | clear => exact ⟨List.nodup_nil, Nat.zero_le _⟩

theorem lru_applyOp_maxSize [DecidableEq K] (c : LRUCache K V)
    (op : CacheOp K V) : (c.applyOp op).maxSize = c.maxSize := by
  cases op with
  | get k =>
    unfold LRUCache.applyOp LRUCache.get
    dsimp only
    cases c.cache.find? fun p => decide (p.1 = k) <;> rfl
  | set k v => rfl
  | clear => rfl

theorem lru_runOps_inv [DecidableEq K] (c : LRUCache K V) (h : c.Inv)
    (ops : List (CacheOp K V)) : (c.runOps ops).Inv := by
  induction ops generalizing c with
  | nil => exact h
  | cons op t ih => exact ih _ (lru_applyOp_inv c h op)

theorem lru_runOps_maxSize [DecidableEq K] (c : LRUCache K V)
    (ops : List (CacheOp K V)) : (c.runOps ops).maxSize = c.maxSize := by
  induction ops generalizing c with
  | nil => rfl
  | cons op t ih => rw [LRUCache.runOps, ih, lru_applyOp_maxSize]

/-- C9: for a cache of capacity `maxSize ≥ 1`, after any sequence of
`get`/`set`/`clear` operations the size never exceeds `maxSize`, and a `get`
immediately after a `set` of the same key returns the value just stored. -/
theorem C9_lru_cache_invariant (K V : Type) [DecidableEq K] (maxSize : ℕ)
    (hmax : 1 ≤ maxSize) (ops : List (CacheOp K V)) :
    ((LRUCache.empty K V maxSize).runOps ops).size ≤ maxSize ∧
    ∀ k v, ((((LRUCache.empty K V maxSize).runOps ops).set k v).get k).1 =
      some v := by
  have hms := lru_runOps_maxSize (LRUCache.empty K V maxSize) ops
  have hinv : ((LRUCache.empty K V maxSize).runOps ops).Inv :=
    lru_runOps_inv (LRUCache.empty K V maxSize) ⟨List.nodup_nil, Nat.zero_le _⟩ ops
  constructor
  · have h2 := hinv.2
    rw [hms] at h2
    exact h2
  · intro k v
    exact (lru_set_spec _ hinv k v).2 (by rw [hms]; exact hmax)

/-- C9 witness: a capacity-1 cache after a small operation sequence. -/
theorem C9_witness :
    (1 : ℕ) ≤ 1 ∧
    ((LRUCache.empty ℕ ℕ 1).runOps [.set 1 2, .get 1, .set 3 4]).size ≤ 1 ∧
    ((((LRUCache.empty ℕ ℕ 1).runOps [.set 1 2, .get 1, .set 3 4]).set 5 7).get 5).1 =
      some 7 := by
  refine ⟨le_refl 1, ?_, ?_⟩
  · exact (C9_lru_cache_invariant ℕ ℕ 1 (le_refl 1) [.set 1 2, .get 1, .set 3 4]).1
  · exact (C9_lru_cache_invariant ℕ ℕ 1 (le_refl 1) [.set 1 2, .get 1, .set 3 4]).2 5 7

theorem foldl_scanMinStep_some (l : List (ℕ × ℚ)) (m0 : ℚ) (c0 : ℕ) :
    ∃ m c, l.foldl scanMinStep (some (m0, c0)) = some (m, c) ∧
      ((m, c) = (m0, c0) ∨ (c, m) ∈ l) ∧ m ≤ m0 ∧ ∀ p ∈ l, m ≤ p.2 := by
  induction l generalizing m0 c0 with
  | nil => exact ⟨m0, c0, rfl, Or.inl rfl, le_refl _, by simp⟩
  | cons p t ih =>
    rw [List.foldl_cons]
    by_cases hlt : p.2 < m0
    · have hstep : scanMinStep (some (m0, c0)) p = some (p.2, p.1) := by
        unfold scanMinStep
        dsimp only
        rw [if_pos hlt]
      rw [hstep]
      obtain ⟨m, c, heq, hmem, hle, hall⟩ := ih p.2 p.1
      refine ⟨m, c, heq, ?_, le_trans hle (le_of_lt hlt), ?_⟩
      · right
        rcases hmem with h1 | h2
        · cases h1
          rw [Prod.mk.eta]
          exact List.mem_cons_self _ _
        · exact List.mem_cons_of_mem _ h2
      · intro q hq
        rcases List.mem_cons.mp hq with rfl | hq2
        · exact hle
        · exact hall q hq2
    · have hstep : scanMinStep (some (m0, c0)) p = some (m0, c0) := by
        unfold scanMinStep
        dsimp only
        rw [if_neg hlt]
      rw [hstep]
      obtain ⟨m, c, heq, hmem, hle, hall⟩ := ih m0 c0
      refine ⟨m, c, heq, ?_, hle, ?_⟩
      · rcases hmem with h1 | h2
        · exact Or.inl h1
        · exact Or.inr (List.mem_cons_of_mem _ h2)
      · intro q hq
        rcases List.mem_cons.mp hq with rfl | hq2
        · exact le_trans hle (not_lt.mp hlt)
        · exact hall q hq2

theorem scanMin_spec (ds : List ℚ) (hne : ds ≠ []) :
    ∃ m c, scanMin ds = some (m, c) ∧ c < ds.length ∧ ds[c]? = some m ∧
      ∀ j, ∀ hj : j < ds.length, m ≤ ds[j] := by
  cases ds with
  | nil => exact absurd rfl hne
  | cons d0 t =>
    unfold scanMin
    rw [List.enum_cons, List.foldl_cons]
    have hstep : scanMinStep none (0, d0) = some (d0, 0) := rfl
    rw [hstep]
    obtain ⟨m, c, heq, hmem, hle, hall⟩ := foldl_scanMinStep_some (t.enumFrom 1) d0 0
    have hmem2 : (d0 :: t)[c]? = some m ∧ c < (d0 :: t).length := by
      rcases hmem with h1 | h2
      · injection h1 with hm hc
        subst hm
        subst hc
        exact ⟨by simp, by simp⟩
      · have h3 := List.mk_mem_enumFrom_iff_le_and_getElem?_sub.mp h2
        obtain ⟨h1c, hval⟩ := h3
        have hcpos : 1 ≤ c := h1c
        obtain ⟨k, rfl⟩ : ∃ k, c = k + 1 := ⟨c - 1, by omega⟩
        have hk : t[k]? = some m := by simpa using hval
        have hklen := (List.getElem?_eq_some.mp hk).1
        exact ⟨by simpa using hk, by simp; omega⟩
    refine ⟨m, c, heq, hmem2.2, hmem2.1, ?_⟩
    intro j hj
    cases j with
    | zero => simpa using hle
    | succ k =>
      have hkt : k < t.length := by
        simpa using hj
      have hmm : m ≤ t[k] := by
        have hmem3 : ((k + 1 : ℕ), t[k]) ∈ t.enumFrom 1 := by
          apply List.mk_mem_enumFrom_iff_le_and_getElem?_sub.mpr
          constructor
          · omega
          · simp only [Nat.add_sub_cancel]
            exact List.getElem?_eq_getElem hkt
        exact hall _ hmem3
      simpa using hmm

/-- C10: with a non-empty segment list, `updateSegmentStates` marks exactly
one segment `ACTIVE` — one whose midpoint is at minimal (squared) planar
distance from the position — with every earlier segment `DONE` and every
later one `PENDING`. -/
theorem C10_updateSegmentStates_spec (r : Route) (lat lon : ℚ)
    (hne : r.segments ≠ []) :
    ∃ c, ∃ hc : c < r.segments.length,
      (r.updateSegmentStates lat lon).segments.length = r.segments.length ∧
      (∀ j seg, (r.updateSegmentStates lat lon).segments[j]? = some seg →
        seg.state = if j < c then SegmentState.DONE
          else if j = c then SegmentState.ACTIVE else SegmentState.PENDING) ∧
      ∀ j, ∀ hj : j < r.segments.length,
        r.segMidDistSq lat lon (r.segments.get ⟨c, hc⟩) ≤
          r.segMidDistSq lat lon (r.segments.get ⟨j, hj⟩) := by
  have hlen0 : ¬r.segments.length = 0 := by
    simpa using hne
  have hdsne : r.segments.map (r.segMidDistSq lat lon) ≠ [] := by
    simpa using hne
  obtain ⟨m, c, heq, hclt, hcval, hmin⟩ :=
    scanMin_spec (r.segments.map (r.segMidDistSq lat lon)) hdsne
  rw [List.length_map] at hclt
  unfold Route.updateSegmentStates
  rw [if_neg hlen0, heq]
  refine ⟨c, hclt, ?_, ?_, ?_⟩
  · rw [List.length_map, List.enum_length]
  · intro j seg hseg
    rw [List.getElem?_map, List.getElem?_enum] at hseg
    cases hg : r.segments[j]? with
    | none =>
      rw [hg] at hseg
      cases hseg
    | some s0 =>
      rw [hg] at hseg
      simp only [Option.map_some'] at hseg
      injection hseg with hseg2
      subst hseg2
      by_cases h1 : j < c
      · simp [h1]
      · by_cases h2 : j = c
        · simp [h1, h2]
        · simp [h1, h2]
  · intro j hj
    have hmval : m = r.segMidDistSq lat lon (r.segments.get ⟨c, hclt⟩) := by
      rw [List.getElem?_map] at hcval
      rw [List.getElem?_eq_getElem hclt] at hcval
      simp only [Option.map_some'] at hcval
      injection hcval with h3
      rw [← h3]
      rfl
    have h4 := hmin j (by rw [List.length_map]; exact hj)
    rw [List.getElem_map] at h4
    rw [← hmval]
    exact h4

/-- C10 witness: at the first waypoint of the three-point route, segment 0 is
the nearest and becomes the unique `ACTIVE` segment. -/
theorem C10_witness :
    R3.segments ≠ [] ∧
    ∃ c, ∃ hc : c < R3.segments.length,
      (R3.updateSegmentStates 0 0).segments.length = R3.segments.length ∧
      (∀ j seg, (R3.updateSegmentStates 0 0).segments[j]? = some seg →
        seg.state = if j < c then SegmentState.DONE
          else if j = c then SegmentState.ACTIVE else SegmentState.PENDING) ∧
      ∀ j, ∀ hj : j < R3.segments.length,
        R3.segMidDistSq 0 0 (R3.segments.get ⟨c, hc⟩) ≤
          R3.segMidDistSq 0 0 (R3.segments.get ⟨j, hj⟩) :=
  ⟨by decide, C10_updateSegmentStates_spec R3 0 0 (by decide)⟩

theorem points_addPoint (r : Route) (lat lon : ℚ) :
    (r.addPoint lat lon).points = r.points ++ [{ lat := lat, lon := lon }] := rfl

theorem foldl_addPoint_points (wps : List (ℚ × ℚ)) (r : Route) :
    (wps.foldl (fun acc wp => acc.addPoint wp.1 wp.2) r).points =
      r.points ++ wps.map fun wp =>
        ({ lat := wp.1, lon := wp.2 } : RoutePoint) := by
  induction wps generalizing r with
  | nil => simp
  | cons wp t ih =>
    rw [List.foldl_cons, ih, points_addPoint]
    simp

theorem motionProfile_buildRouteFromPayload_simple (wps : List (ℚ × ℚ))
    (mp : MotionProfile) (rid : Option String) (h : mp.type = .simple) :
    (buildRouteFromPayload wps mp rid).motionProfile = mp := by
  unfold buildRouteFromPayload
  rw [if_pos h]

theorem points_buildRouteFromPayload (wps : List (ℚ × ℚ))
    (mp : MotionProfile) (rid : Option String) :
    (buildRouteFromPayload wps mp rid).points =
      wps.map fun wp => ({ lat := wp.1, lon := wp.2 } : RoutePoint) := by
  unfold buildRouteFromPayload
  by_cases h : mp.type = .simple
  · rw [if_pos h]
    show (List.foldl (fun acc wp => acc.addPoint wp.1 wp.2) Route.init wps).points = _
    rw [foldl_addPoint_points]
    rfl
  · rw [if_neg h]
    show (List.foldl (fun acc wp => acc.addPoint wp.1 wp.2) Route.init wps).points = _
    rw [foldl_addPoint_points]
    rfl

/-- C5 (amended): saving a route with ≥ 2 points yields a
`{schema_version: 1, scenario: {meta, route: {points}, motion_profile}}`
document, and loading that document always reconstructs the ordered waypoint
list exactly — whatever the motion profile's type; the motion profile itself
also survives the round trip provided its type is `'simple'` (a
non-`'simple'` profile is replaced by the default on load). -/
theorem C5_save_load_roundtrip (r : Route) (gid cat fb : String)
    (hpts : 2 ≤ r.points.length) :
    ∃ doc, saveRoute r gid cat fb = some doc ∧
      doc.schema_version = 1 ∧
      doc.scen.routePoints = (r.points.map fun p => (p.lat, p.lon)) ∧
      doc.scen.motion_profile = r.motionProfile ∧
      ∃ r2, handleLoadRoute doc = some r2 ∧
        (r2.points.map fun p => (p.lat, p.lon)) =
          (r.points.map fun p => (p.lat, p.lon)) ∧
        (r.motionProfile.type = .simple → r2.motionProfile = r.motionProfile) := by
  refine ⟨buildRouteData r gid cat fb, ?_, rfl, rfl, rfl, ?_⟩
  · unfold saveRoute
    rw [if_neg (by omega)]
  · refine ⟨buildRouteFromPayload (buildRouteData r gid cat fb).scen.routePoints
      (buildRouteData r gid cat fb).scen.motion_profile
      (some (buildRouteData r gid cat fb).scen.meta.name), ?_, ?_, ?_⟩
    · unfold handleLoadRoute
      rw [if_neg (by simp [buildRouteData])]
    · rw [points_buildRouteFromPayload]
      show ((((r.points.map fun p => (p.lat, p.lon)).map fun wp =>
        ({ lat := wp.1, lon := wp.2 } : RoutePoint))).map fun p => (p.lat, p.lon)) =
          (r.points.map fun p => (p.lat, p.lon))
      rw [List.map_map, List.map_map]
      rfl
    · intro hsimple
      exact motionProfile_buildRouteFromPayload_simple _ _ _ hsimple

/-- C5 counterexample: a 2-point route whose motion profile has type
`'advance'` is accepted by save, but loading the saved document silently
replaces the profile with the default, breaking the round trip as claimed. -/
theorem C5_counterexample :
    2 ≤ RAdv.points.length ∧
    saveRoute RAdv "id0" "t0" "fb0" = some (buildRouteData RAdv "id0" "t0" "fb0") ∧
    (buildRouteData RAdv "id0" "t0" "fb0").scen.motion_profile = RAdv.motionProfile ∧
    (handleLoadRoute (buildRouteData RAdv "id0" "t0" "fb0")).map
      (fun r2 => r2.motionProfile) ≠ some RAdv.motionProfile := by
  refine ⟨by decide, rfl, rfl, ?_⟩
  have hload : (handleLoadRoute (buildRouteData RAdv "id0" "t0" "fb0")).map
      (fun r2 => r2.motionProfile) = some createDefaultMotionProfile := rfl
  rw [hload]
  intro hc
  injection hc with hc2
  have htype : MotionProfileType.simple = MotionProfileType.advance :=
    congrArg MotionProfile.type hc2
  cases htype

/-- C5 witness: round trip on the two-point route carrying an `'advance'`
motion profile — the waypoint list is reconstructed regardless of the
profile's type. -/
theorem C5_witness :
    2 ≤ RAdv.points.length ∧
    (∃ doc, saveRoute RAdv "id1" "t1" "fb1" = some doc ∧
      doc.schema_version = 1 ∧
      doc.scen.routePoints = (RAdv.points.map fun p => (p.lat, p.lon)) ∧
      doc.scen.motion_profile = RAdv.motionProfile ∧
      ∃ r2, handleLoadRoute doc = some r2 ∧
        (r2.points.map fun p => (p.lat, p.lon)) =
          (RAdv.points.map fun p => (p.lat, p.lon)) ∧
        (RAdv.motionProfile.type = .simple → r2.motionProfile = RAdv.motionProfile)) :=
  ⟨by decide, C5_save_load_roundtrip RAdv "id1" "t1" "fb1" (by decide)⟩

end TNavSim
